import Mathlib

/-!
# lexegen front end: `src/parser.h`

A shallow embedding of the inline code of `parser.h`:

* `detail::from_utf8` : the code point decoder,
* `Log::operator int` together with the `Log` constructors and `operator<<`,
* `Parser::extractPatternTree`, `getPatterns`, `getStartConditions`,
* `Parser::dig` and `Parser::hdig`.

Conventions.  An iterator is a position (`Nat`) in a buffer `buf : List Nat`
holding the unsigned value of each element.  `uint32_t` values are naturals
reduced modulo `2^32` wherever the C++ operation can wrap.  The out-parameter
`*pcode` is threaded through as state.  A `std::unique_ptr<Node>` is an
`Option Node`, the null pointer being `none`.
-/

namespace Lexegen

/-! ## `detail::from_utf8` -/

namespace detail

/-- The element under an iterator, `*in`. -/
def deref (buf : List Nat) (i : Nat) : Nat := buf.getD i 0

/-- The table `mask_tbl` of `from_utf8`. -/
def mask_tbl : List Nat := [0xFF, 0x1F, 0xF, 0x7]

/-- The table `count_tbl` of `from_utf8`. -/
def count_tbl : List Nat := [1, 1, 1, 1, 2, 2, 3, 0]

/-- What a call of `from_utf8` leaves behind: the returned iterator, the
content of `*pcode` after the call, and the positions that were dereferenced,
in program order. -/
structure Utf8Result where
  cursor : Nat
  pcode : Nat
  reads : List Nat
  deriving DecidableEq, Repr

/-- The loop `while (count > 0) { code = (code << 6) | ((*++in) & 0x3F); --count; }`.
Returns the final `in`, the final `code` and the positions dereferenced. -/
def from_utf8_loop (buf : List Nat) : Nat → Nat → Nat → Nat × Nat × List Nat
  | 0, in_, code => (in_, code, [])
  | count + 1, in_, code =>
    let in1 := in_ + 1
    let code1 := ((code <<< 6) % 4294967296) ||| (deref buf in1 &&& 0x3F)
    let r := from_utf8_loop buf count in1 code1
    (r.1, r.2.1, in1 :: r.2.2)

/-- The function `detail::from_utf8(in, in_end, pcode)`.  The argument `pcode`
is the content of `*pcode` before the call. -/
def from_utf8 (buf : List Nat) (in_ in_end : Nat) (pcode : Nat) : Utf8Result :=
  if in_ ≥ in_end then ⟨in_, pcode, []⟩
  else
    let code := deref buf in_ % 256
    if code &&& 0xC0 = 0xC0 then
      let count := count_tbl.getD ((code >>> 3) &&& 7) 0
      if in_end - in_ ≤ count then ⟨in_, pcode, [in_]⟩
      else
        let code := code &&& mask_tbl.getD count 0
        let r := from_utf8_loop buf count in_ code
        ⟨r.1 + 1, r.2.1, in_ :: r.2.2⟩
    else ⟨in_ + 1, code, [in_]⟩



/-- The continuation count of a leading byte as the specification tabulates
it: 1 for `0xC0..0xDF`, 2 for `0xE0..0xEF`, 3 for `0xF0..0xF7`, and 0 for every
other byte.  Reference definition, compared below with the `count_tbl` lookup
of the source. -/
def continuation_count (b : Nat) : Nat :=
  if 0xC0 ≤ b ∧ b ≤ 0xDF then 1
  else if 0xE0 ≤ b ∧ b ≤ 0xEF then 2
  else if 0xF0 ≤ b ∧ b ≤ 0xF7 then 3
  else 0

/-- The standard UTF-8 encoding of a code point below `0x110000` (RFC 3629):
`0xxxxxxx`, `110xxxxx 10xxxxxx`, `1110xxxx 10xxxxxx 10xxxxxx` and
`11110xxx 10xxxxxx 10xxxxxx 10xxxxxx`.  Reference encoder the decoder is
compared with; it is not part of `parser.h`.  It agrees with
`String.utf8EncodeChar` on every `Char` (`utf8_encode_eq_core`). -/
def utf8_encode (v : Nat) : List Nat :=
  if v < 0x80 then [v]
  else if v < 0x800 then [0xC0 ||| (v >>> 6), 0x80 ||| (v &&& 0x3F)]
  else if v < 0x10000 then
    [0xE0 ||| (v >>> 12), 0x80 ||| ((v >>> 6) &&& 0x3F), 0x80 ||| (v &&& 0x3F)]
  else
    [0xF0 ||| (v >>> 18), 0x80 ||| ((v >>> 12) &&& 0x3F), 0x80 ||| ((v >>> 6) &&& 0x3F),
      0x80 ||| (v &&& 0x3F)]

/-- A Unicode scalar value: at most `0x10FFFF` and not a surrogate. -/
def is_scalar (v : Nat) : Prop := v ≤ 0x10FFFF ∧ ¬ (0xD800 ≤ v ∧ v ≤ 0xDFFF)

instance (v : Nat) : Decidable (is_scalar v) := by unfold is_scalar; infer_instance

end detail

/-! ## `TokenLoc` and `Log` -/

/-- The struct `TokenLoc`. -/
structure TokenLoc where
  n_line : Nat := 0
  n_col : Nat := 0
  deriving DecidableEq, Repr

/-- The enumeration `Log::MsgType`. -/
inductive Log.MsgType where
  | kDebug
  | kInfo
  | kWarning
  | kError
  | kFatal
  deriving DecidableEq, Repr

/-- The data members of `Log`.  The pointer `const Parser* parser_` is the
address of a parser, `none` being `nullptr`; `ss_` is the text buffered in the
string stream.  The defaults are the default member initialisers. -/
structure Log where
  type_ : Log.MsgType := Log.MsgType.kDebug
  parser_ : Option Nat := none
  loc_ : TokenLoc := {}
  ss_ : String := ""
  deriving DecidableEq, Repr

namespace Log

/-- The constructor `Log(MsgType type)`. -/
def mk1 (type : MsgType) : Log := { type_ := type }

/-- The constructor `Log(MsgType type, const Parser* parser)`. -/
def mk2 (type : MsgType) (parser : Option Nat) : Log := { type_ := type, parser_ := parser }

/-- The constructor `Log(MsgType type, const Parser* parser, const TokenLoc& l)`. -/
def mk3 (type : MsgType) (parser : Option Nat) (l : TokenLoc) : Log :=
  { type_ := type, parser_ := parser, loc_ := l }

/-- The member `operator<<(const Ty& v)`: `ss_ << v`, the streamed value being
given by the text it formats to. -/
def operator_shl (log : Log) (v : String) : Log := { log with ss_ := log.ss_ ++ v }

/-- The member `operator int() const`. -/
def operator_int (_log : Log) : Int := -1

end Log

/-! ## `Parser` -/

/-- The struct `Parser::Pattern`.  `Node` and `ValueSet` are declared outside
`parser.h` and are parameters here; the owning pointer `syn_tree` is `none`
when null. -/
structure Pattern (Node ValueSet : Type) where
  id : String
  sc : ValueSet
  syn_tree : Option Node

/-- The payload `std::variant<unsigned, std::string_view, ValueSet>`. -/
inductive TokenVal (ValueSet : Type) where
  | num (n : Nat)
  | str (s : String)
  | set (v : ValueSet)

/-- The struct `Parser::TokenInfo`. -/
structure TokenInfo (ValueSet : Type) where
  loc : TokenLoc
  val : TokenVal ValueSet

/-- The data members of `Parser`.  `Node`, `ValueSet`, `lex_detail::CtxData`
and the input stream are declared outside `parser.h` and are parameters. -/
structure Parser (Node ValueSet CtxData IStream : Type) where
  input_ : IStream
  file_name_ : String
  text_ : Option (List Nat)
  current_line_ : String
  loc_ : TokenLoc
  sc_stack_ : List Int
  lex_ctx_ : CtxData
  lex_state_stack_ : List Int
  tkn_ : TokenInfo ValueSet
  options_ : List (String × String)
  definitions_ : List (String × Option Node)
  start_conditions_ : List String
  patterns_ : List (Pattern Node ValueSet)

namespace Parser

variable {Node ValueSet CtxData IStream : Type}

/-- The member `getFileName()`. -/
def getFileName (p : Parser Node ValueSet CtxData IStream) : String := p.file_name_

/-- The member `getCurrentLine()`. -/
def getCurrentLine (p : Parser Node ValueSet CtxData IStream) : String := p.current_line_

/-- The member `getPatterns()`. -/
def getPatterns (p : Parser Node ValueSet CtxData IStream) : List (Pattern Node ValueSet) :=
  p.patterns_

/-- The member `getStartConditions()`. -/
def getStartConditions (p : Parser Node ValueSet CtxData IStream) : List String :=
  p.start_conditions_

/-- The member `extractPatternTree(n)`:
`return std::move(patterns_[n].syn_tree);`.  The result is the returned
pointer together with the parser afterwards; moving from a `unique_ptr` leaves
it null.  `patterns_[n]` with `n` out of range has no defined behaviour and is
the only failure (`none`). -/
def extractPatternTree (p : Parser Node ValueSet CtxData IStream) (n : Nat) :
    Option (Option Node × Parser Node ValueSet CtxData IStream) :=
  match p.patterns_[n]? with
  | none => none
  | some pat =>
    some (pat.syn_tree, { p with patterns_ := p.patterns_.set n { pat with syn_tree := none } })

/-- The value of a character literal as a C++ `char` promoted to `int`. -/
def chr (c : Char) : Int := Int.ofNat c.toNat

/-- The static member `dig(char ch)`. -/
def dig (ch : Int) : Int := ch - chr '0'

/-- The static member `hdig(char ch)`. -/
def hdig (ch : Int) : Int :=
  if ch ≥ chr 'a' ∧ ch ≤ chr 'f' then (ch - chr 'a') + 10
  else if ch ≥ chr 'A' ∧ ch ≤ chr 'F' then (ch - chr 'A') + 10
  else ch - chr '0'

/-- A parser state with two patterns, the first owning the tree `7`; trees
are numbers and the types declared outside `parser.h` are trivial. -/
def sample : Parser Nat Unit Unit Unit :=
  { input_ := (), file_name_ := "in.lex", text_ := none, current_line_ := "",
    loc_ := ⟨1, 1⟩, sc_stack_ := [], lex_ctx_ := (), lex_state_stack_ := [],
    tkn_ := ⟨⟨0, 0⟩, TokenVal.num 0⟩, options_ := [], definitions_ := [],
    start_conditions_ := ["initial"],
    patterns_ := [⟨"num", (), some 7⟩, ⟨"id", (), some 9⟩] }

/-- The state `sample` with the tree of slot 0 moved out. -/
def sample_extracted : Parser Nat Unit Unit Unit :=
  { sample with patterns_ := [⟨"num", (), none⟩, ⟨"id", (), some 9⟩] }

end Parser

/-! # Theorems -/

namespace detail

/-! ### Auxiliary facts about the decoder -/

set_option maxRecDepth 100000 in
/-- The leading-byte classification performed with `0xC0` and `count_tbl`. -/
theorem leader_table : ∀ b < 256,
    ((b &&& 0xC0 = 0xC0) ↔ 0xC0 ≤ b) ∧
    (0xC0 ≤ b → b ≤ 0xDF → count_tbl.getD ((b >>> 3) &&& 7) 0 = 1) ∧
    (0xE0 ≤ b → b ≤ 0xEF → count_tbl.getD ((b >>> 3) &&& 7) 0 = 2) ∧
    (0xF0 ≤ b → b ≤ 0xF7 → count_tbl.getD ((b >>> 3) &&& 7) 0 = 3) ∧
    (0xF8 ≤ b → count_tbl.getD ((b >>> 3) &&& 7) 0 = 0) := by
  decide

theorem and_3F (c : Nat) : c &&& 0x3F = c % 64 :=
  Nat.and_pow_two_sub_one_eq_mod c 6

theorem and_3F_lt (c : Nat) : c &&& 0x3F < 64 := by
  rw [and_3F]; exact Nat.mod_lt _ (by decide)

theorem shl6_or (x c : Nat) : (x <<< 6) ||| (c &&& 0x3F) = x * 64 + c % 64 := by
  rw [and_3F, Nat.shiftLeft_eq, Nat.mul_comm x]
  exact (Nat.mul_add_lt_is_or (Nat.mod_lt c (by decide)) x).symm

/-- One loop step does not wrap around `2^32` while the accumulator is small. -/
theorem step_nowrap (x c : Nat) (hx : x < 67108864) :
    ((x <<< 6) % 4294967296) ||| (c &&& 0x3F) = (x <<< 6) ||| (c &&& 0x3F) := by
  rw [Nat.mod_eq_of_lt]
  rw [Nat.shiftLeft_eq]; omega

theorem step_lt (x c n : Nat) (hx : x < n) : (x <<< 6) ||| (c &&& 0x3F) < n * 64 := by
  rw [shl6_or]; omega

theorem from_utf8_empty (buf : List Nat) (in_ in_end p : Nat) (h : in_end ≤ in_) :
    from_utf8 buf in_ in_end p = ⟨in_, p, []⟩ := by
  simp [from_utf8, h]

/-- The decoder on a byte without both top bits set. -/
theorem from_utf8_single (buf : List Nat) (in_ in_end p : Nat) (h : in_ < in_end)
    (hb : deref buf in_ % 256 < 0xC0) :
    from_utf8 buf in_ in_end p = ⟨in_ + 1, deref buf in_ % 256, [in_]⟩ := by
  have hlt : deref buf in_ % 256 < 256 := Nat.mod_lt _ (by decide)
  have ht := (leader_table _ hlt).1
  have hn : ¬ (deref buf in_ % 256 &&& 0xC0 = 0xC0) := by rw [ht]; omega
  simp only [from_utf8, ge_iff_le, Nat.not_le.mpr h, if_false, hn]

/-- The decoder on a byte with both top bits set, the table lookup being `k`. -/
theorem from_utf8_leader (buf : List Nat) (in_ in_end p k : Nat) (h : in_ < in_end)
    (hb : 0xC0 ≤ deref buf in_ % 256)
    (hk : count_tbl.getD (((deref buf in_ % 256) >>> 3) &&& 7) 0 = k) :
    from_utf8 buf in_ in_end p =
      if in_end - in_ ≤ k then ⟨in_, p, [in_]⟩
      else
        ⟨(from_utf8_loop buf k in_ (deref buf in_ % 256 &&& mask_tbl.getD k 0)).1 + 1,
         (from_utf8_loop buf k in_ (deref buf in_ % 256 &&& mask_tbl.getD k 0)).2.1,
         in_ :: (from_utf8_loop buf k in_ (deref buf in_ % 256 &&& mask_tbl.getD k 0)).2.2⟩ := by
  have hlt : deref buf in_ % 256 < 256 := Nat.mod_lt _ (by decide)
  have hc : deref buf in_ % 256 &&& 0xC0 = 0xC0 := by rw [(leader_table _ hlt).1]; exact hb
  simp only [from_utf8, ge_iff_le, Nat.not_le.mpr h, if_false, hc, if_true, hk]

theorem from_utf8_high (buf : List Nat) (in_ in_end p : Nat) (h : in_ < in_end)
    (hb : 0xF8 ≤ deref buf in_ % 256) :
    from_utf8 buf in_ in_end p = ⟨in_ + 1, deref buf in_ % 256, [in_]⟩ := by
  have hlt : deref buf in_ % 256 < 256 := Nat.mod_lt _ (by decide)
  obtain ⟨-, -, -, -, h0⟩ := leader_table _ hlt
  have hm : deref buf in_ % 256 &&& 0xFF = deref buf in_ % 256 := by
    rw [Nat.and_pow_two_sub_one_eq_mod _ 8]; exact Nat.mod_eq_of_lt hlt
  rw [from_utf8_leader buf in_ in_end p 0 h (by omega) (h0 hb), if_neg (by omega)]
  simp only [from_utf8_loop, mask_tbl, List.getD_cons_zero, hm]

theorem from_utf8_trunc (buf : List Nat) (in_ in_end p k : Nat) (h : in_ < in_end)
    (hb : 0xC0 ≤ deref buf in_ % 256)
    (hk : count_tbl.getD (((deref buf in_ % 256) >>> 3) &&& 7) 0 = k)
    (ht : in_end - in_ ≤ k) :
    from_utf8 buf in_ in_end p = ⟨in_, p, [in_]⟩ := by
  rw [from_utf8_leader buf in_ in_end p k h hb hk, if_pos ht]

theorem from_utf8_two (buf : List Nat) (in_ in_end p : Nat)
    (hb : 0xC0 ≤ deref buf in_ % 256) (hb2 : deref buf in_ % 256 ≤ 0xDF)
    (hn : in_ + 2 ≤ in_end) :
    from_utf8 buf in_ in_end p =
      ⟨in_ + 2,
       ((deref buf in_ % 256 &&& 0x1F) <<< 6) ||| (deref buf (in_ + 1) &&& 0x3F),
       [in_, in_ + 1]⟩ := by
  have hlt : deref buf in_ % 256 < 256 := Nat.mod_lt _ (by decide)
  obtain ⟨-, h1, -, -, -⟩ := leader_table _ hlt
  have hm : deref buf in_ % 256 &&& 0x1F < 32 := Nat.and_lt_two_pow _ (by decide : 0x1F < 2 ^ 5)
  rw [from_utf8_leader buf in_ in_end p 1 (by omega) hb (h1 hb hb2), if_neg (by omega)]
  simp only [from_utf8_loop, mask_tbl, List.getD_cons_zero, List.getD_cons_succ]
  rw [step_nowrap _ _ (by omega)]

theorem from_utf8_three (buf : List Nat) (in_ in_end p : Nat)
    (hb : 0xE0 ≤ deref buf in_ % 256) (hb2 : deref buf in_ % 256 ≤ 0xEF)
    (hn : in_ + 3 ≤ in_end) :
    from_utf8 buf in_ in_end p =
      ⟨in_ + 3,
       ((((deref buf in_ % 256 &&& 0xF) <<< 6) ||| (deref buf (in_ + 1) &&& 0x3F)) <<< 6)
         ||| (deref buf (in_ + 2) &&& 0x3F),
       [in_, in_ + 1, in_ + 2]⟩ := by
  have hlt : deref buf in_ % 256 < 256 := Nat.mod_lt _ (by decide)
  obtain ⟨-, -, h2, -, -⟩ := leader_table _ hlt
  have hm : deref buf in_ % 256 &&& 0xF < 16 := Nat.and_lt_two_pow _ (by decide : 0xF < 2 ^ 4)
  have hs := step_lt _ (deref buf (in_ + 1)) _ hm
  rw [from_utf8_leader buf in_ in_end p 2 (by omega) (by omega) (h2 hb hb2), if_neg (by omega)]
  simp only [from_utf8_loop, mask_tbl, List.getD_cons_zero, List.getD_cons_succ, Nat.add_assoc,
    Nat.reduceAdd]
  rw [step_nowrap (deref buf in_ % 256 &&& 0xF) _ (by omega)]
  rw [step_nowrap ((deref buf in_ % 256 &&& 0xF) <<< 6 ||| deref buf (in_ + 1) &&& 0x3F) _
    (by omega)]

theorem from_utf8_four (buf : List Nat) (in_ in_end p : Nat)
    (hb : 0xF0 ≤ deref buf in_ % 256) (hb2 : deref buf in_ % 256 ≤ 0xF7)
    (hn : in_ + 4 ≤ in_end) :
    from_utf8 buf in_ in_end p =
      ⟨in_ + 4,
       ((((((deref buf in_ % 256 &&& 0x7) <<< 6) ||| (deref buf (in_ + 1) &&& 0x3F)) <<< 6)
         ||| (deref buf (in_ + 2) &&& 0x3F)) <<< 6) ||| (deref buf (in_ + 3) &&& 0x3F),
       [in_, in_ + 1, in_ + 2, in_ + 3]⟩ := by
  have hlt : deref buf in_ % 256 < 256 := Nat.mod_lt _ (by decide)
  obtain ⟨-, -, -, h3, -⟩ := leader_table _ hlt
  have hm : deref buf in_ % 256 &&& 0x7 < 8 := Nat.and_lt_two_pow _ (by decide : 0x7 < 2 ^ 3)
  have hs := step_lt _ (deref buf (in_ + 1)) _ hm
  have hs2 := step_lt _ (deref buf (in_ + 2)) _ hs
  rw [from_utf8_leader buf in_ in_end p 3 (by omega) (by omega) (h3 hb hb2), if_neg (by omega)]
  simp only [from_utf8_loop, mask_tbl, List.getD_cons_zero, List.getD_cons_succ, Nat.add_assoc,
    Nat.reduceAdd]
  rw [step_nowrap (deref buf in_ % 256 &&& 0x7) _ (by omega)]
  rw [step_nowrap ((deref buf in_ % 256 &&& 0x7) <<< 6 ||| deref buf (in_ + 1) &&& 0x3F) _
    (by omega)]
  rw [step_nowrap (((deref buf in_ % 256 &&& 0x7) <<< 6 ||| deref buf (in_ + 1) &&& 0x3F) <<< 6
    ||| deref buf (in_ + 2) &&& 0x3F) _ (by omega)]


theorem deref_of_getElem? (buf : List Nat) (i b : Nat) (h : buf[i]? = some b) :
    deref buf i = b := by
  simp [deref, List.getD_eq_getElem?_getD, h]

theorem deref_append_length (pre l : List Nat) (i : Nat) :
    deref (pre ++ l) (pre.length + i) = deref l i := by
  induction pre with
  | nil => simp
  | cons a pre ih =>
    have e : (a :: pre).length + i = (pre.length + i) + 1 := by simp; omega
    rw [e]
    simpa [deref] using ih

theorem enc_lead2 : ∀ y < 32, (0xC0 ||| y) % 256 = 0xC0 ||| y ∧ 0xC0 ≤ (0xC0 ||| y) ∧
    (0xC0 ||| y) ≤ 0xDF ∧ (0xC0 ||| y) &&& 0x1F = y := by decide

theorem enc_lead3 : ∀ y < 16, (0xE0 ||| y) % 256 = 0xE0 ||| y ∧ 0xE0 ≤ (0xE0 ||| y) ∧
    (0xE0 ||| y) ≤ 0xEF ∧ (0xE0 ||| y) &&& 0xF = y := by decide

theorem enc_lead4 : ∀ y < 8, (0xF0 ||| y) % 256 = 0xF0 ||| y ∧ 0xF0 ≤ (0xF0 ||| y) ∧
    (0xF0 ||| y) ≤ 0xF7 ∧ (0xF0 ||| y) &&& 0x7 = y := by decide

theorem enc_cont : ∀ z < 64, (0x80 ||| z) &&& 0x3F = z := by decide

theorem enc_cont_and (x : Nat) : (0x80 ||| (x &&& 0x3F)) &&& 0x3F = x % 64 := by
  rw [enc_cont _ (and_3F_lt x), and_3F]

theorem round_trip_aux (v : Nat) (hv : v ≤ 0x10FFFF) (pre s post : List Nat) (p0 : Nat) :
    (from_utf8 (pre ++ utf8_encode v ++ s ++ post) pre.length
      (pre.length + (utf8_encode v).length + s.length) p0).pcode = v ∧
    (from_utf8 (pre ++ utf8_encode v ++ s ++ post) pre.length
      (pre.length + (utf8_encode v).length + s.length) p0).cursor
        = pre.length + (utf8_encode v).length := by
  have d0 : ∀ a l, deref (pre ++ a :: l) pre.length = a := fun a l => by
    simpa using deref_append_length pre (a :: l) 0
  have d1 : ∀ a b l, deref (pre ++ a :: b :: l) (pre.length + 1) = b := fun a b l => by
    simpa using deref_append_length pre (a :: b :: l) 1
  have d2 : ∀ a b c l, deref (pre ++ a :: b :: c :: l) (pre.length + 2) = c := fun a b c l => by
    simpa using deref_append_length pre (a :: b :: c :: l) 2
  have d3 : ∀ a b c d l, deref (pre ++ a :: b :: c :: d :: l) (pre.length + 3) = d :=
    fun a b c d l => by simpa using deref_append_length pre (a :: b :: c :: d :: l) 3
  unfold utf8_encode
  split_ifs with h1 h2 h3
  · simp only [List.append_assoc, List.cons_append, List.nil_append, List.length_cons,
      List.length_nil]
    rw [from_utf8_single _ _ _ _ (by omega) (by rw [d0]; omega), d0]
    exact ⟨Nat.mod_eq_of_lt (by omega), rfl⟩
  · simp only [List.append_assoc, List.cons_append, List.nil_append, List.length_cons,
      List.length_nil]
    have hy : v >>> 6 < 32 := by rw [Nat.shiftRight_eq_div_pow]; omega
    obtain ⟨e1, e2, e3, e4⟩ := enc_lead2 _ hy
    rw [from_utf8_two _ _ _ _ (by rw [d0, e1]; exact e2) (by rw [d0, e1]; exact e3) (by omega),
      d0, d1, e1, e4, enc_cont_and, ← and_3F, shl6_or, Nat.shiftRight_eq_div_pow]
    exact ⟨by dsimp only; omega, rfl⟩
  · simp only [List.append_assoc, List.cons_append, List.nil_append, List.length_cons,
      List.length_nil]
    have hy : v >>> 12 < 16 := by rw [Nat.shiftRight_eq_div_pow]; omega
    obtain ⟨e1, e2, e3, e4⟩ := enc_lead3 _ hy
    rw [from_utf8_three _ _ _ _ (by rw [d0, e1]; exact e2) (by rw [d0, e1]; exact e3) (by omega),
      d0, d1, d2, e1, e4, enc_cont_and, enc_cont_and, ← and_3F, ← and_3F, shl6_or, shl6_or,
      Nat.shiftRight_eq_div_pow, Nat.shiftRight_eq_div_pow]
    exact ⟨by dsimp only; omega, rfl⟩
  · simp only [List.append_assoc, List.cons_append, List.nil_append, List.length_cons,
      List.length_nil]
    have hy : v >>> 18 < 8 := by rw [Nat.shiftRight_eq_div_pow]; omega
    obtain ⟨e1, e2, e3, e4⟩ := enc_lead4 _ hy
    rw [from_utf8_four _ _ _ _ (by rw [d0, e1]; exact e2) (by rw [d0, e1]; exact e3) (by omega),
      d0, d1, d2, d3, e1, e4, enc_cont_and, enc_cont_and, enc_cont_and, ← and_3F, ← and_3F,
      ← and_3F, shl6_or, shl6_or, shl6_or,
      Nat.shiftRight_eq_div_pow, Nat.shiftRight_eq_div_pow, Nat.shiftRight_eq_div_pow]
    exact ⟨by dsimp only; omega, rfl⟩

/-! ### The reference encoder agrees with `String.utf8EncodeChar` -/

theorem u8_and (a b : UInt8) : (a &&& b).toNat = a.toNat &&& b.toNat := by
  show (a.toBitVec &&& b.toBitVec).toNat = _
  simp; rfl

theorem u8_or (a b : UInt8) : (a ||| b).toNat = a.toNat ||| b.toNat := by
  show (a.toBitVec ||| b.toBitVec).toNat = _
  simp; rfl

theorem u32_shr6 (a : UInt32) : (a >>> 6).toNat = a.toNat >>> 6 := by
  show (a.toBitVec >>> (UInt32.mod 6 32).toBitVec).toNat = _
  simp; rfl
theorem u32_shr12 (a : UInt32) : (a >>> 12).toNat = a.toNat >>> 12 := by
  show (a.toBitVec >>> (UInt32.mod 12 32).toBitVec).toNat = _
  simp; rfl
theorem u32_shr18 (a : UInt32) : (a >>> 18).toNat = a.toNat >>> 18 := by
  show (a.toBitVec >>> (UInt32.mod 18 32).toBitVec).toNat = _
  simp; rfl
theorem u32_to_u8 (a : UInt32) : a.toUInt8.toNat = a.toNat % 256 := by
  simp [UInt32.toUInt8, Nat.toUInt8, UInt8.ofNat, UInt8.toNat]

theorem u32_le (a b : UInt32) : a ≤ b ↔ a.toNat ≤ b.toNat := by
  rw [UInt32.le_def, BitVec.le_def]; rfl

theorem core_cont (x : Nat) : (x % 256 &&& 0x3F) ||| 0x80 = 0x80 ||| (x &&& 0x3F) := by
  rw [and_3F, and_3F, Nat.lor_comm]; congr 1; omega

theorem core_lead2 : ∀ y < 32, (y % 256 &&& 0x1F) ||| 0xC0 = 0xC0 ||| y := by decide
theorem core_lead3 : ∀ y < 16, (y % 256 &&& 0xF) ||| 0xE0 = 0xE0 ||| y := by decide
theorem core_lead4 : ∀ y < 8, (y % 256 &&& 0x7) ||| 0xF0 = 0xF0 ||| y := by decide

theorem utf8_encode_eq_core (c : Char) :
    (String.utf8EncodeChar c).map UInt8.toNat = utf8_encode c.val.toNat := by
  have hv : c.val.toNat < 0x110000 := by
    have := c.valid
    rcases this with h | h
    · exact Nat.lt_trans h (by decide)
    · exact h.2
  unfold String.utf8EncodeChar utf8_encode
  simp only [u32_le]
  have e1 : (0x7f : UInt32).toNat = 0x7f := rfl
  have e2 : (0x7ff : UInt32).toNat = 0x7ff := rfl
  have e3 : (0xffff : UInt32).toNat = 0xffff := rfl
  rw [e1, e2, e3]
  have l1 : (0x1f : UInt8).toNat = 0x1F := rfl
  have l2 : (0x0f : UInt8).toNat = 0xF := rfl
  have l3 : (0x07 : UInt8).toNat = 0x7 := rfl
  have l4 : (0x3f : UInt8).toNat = 0x3F := rfl
  have l5 : (0xc0 : UInt8).toNat = 0xC0 := rfl
  have l6 : (0xe0 : UInt8).toNat = 0xE0 := rfl
  have l7 : (0xf0 : UInt8).toNat = 0xF0 := rfl
  have l8 : (0x80 : UInt8).toNat = 0x80 := rfl
  by_cases h1 : c.val.toNat ≤ 0x7f
  · rw [if_pos h1, if_pos (by omega : c.val.toNat < 0x80)]
    simp only [List.map_cons, List.map_nil, u32_to_u8]
    rw [Nat.mod_eq_of_lt (by omega)]
  rw [if_neg h1, if_neg (by omega : ¬ c.val.toNat < 0x80)]
  by_cases h2 : c.val.toNat ≤ 0x7ff
  · rw [if_pos h2, if_pos (by omega : c.val.toNat < 0x800)]
    simp only [List.map_cons, List.map_nil, u32_to_u8, u8_or, u8_and, u32_shr6, l1, l4, l5, l8,
      core_cont]
    rw [core_lead2 _ (by rw [Nat.shiftRight_eq_div_pow]; omega)]
  rw [if_neg h2, if_neg (by omega : ¬ c.val.toNat < 0x800)]
  by_cases h3 : c.val.toNat ≤ 0xffff
  · rw [if_pos h3, if_pos (by omega : c.val.toNat < 0x10000)]
    simp only [List.map_cons, List.map_nil, u32_to_u8, u8_or, u8_and, u32_shr6, u32_shr12,
      l2, l4, l6, l8, core_cont]
    rw [core_lead3 _ (by rw [Nat.shiftRight_eq_div_pow]; omega)]
  rw [if_neg h3, if_neg (by omega : ¬ c.val.toNat < 0x10000)]
  simp only [List.map_cons, List.map_nil, u32_to_u8, u8_or, u8_and, u32_shr6, u32_shr12,
    u32_shr18, l3, l4, l7, l8, core_cont]
  rw [core_lead4 _ (by rw [Nat.shiftRight_eq_div_pow]; omega)]

/-! ### The shape of a call on a non-empty range -/

theorem continuation_count_le (b : Nat) : continuation_count b ≤ 3 := by
  unfold continuation_count; split_ifs <;> omega

set_option maxRecDepth 100000 in
/-- On bytes with both top bits set the `count_tbl` lookup of the source is the
tabulated continuation count. -/
theorem count_tbl_eq_continuation_count : ∀ b < 256, 0xC0 ≤ b →
    count_tbl.getD ((b >>> 3) &&& 7) 0 = continuation_count b := by
  decide

/-- A call on a non-empty range either stops at a truncated sequence, leaving
everything as it was, or consumes the leading byte and its continuation
bytes. -/
theorem from_utf8_shape (buf : List Nat) (in_ in_end p : Nat) (h : in_ < in_end) :
    (0xC0 ≤ deref buf in_ % 256 ∧ deref buf in_ % 256 ≤ 0xF7 ∧
      in_end - in_ ≤ continuation_count (deref buf in_ % 256) ∧
      from_utf8 buf in_ in_end p = ⟨in_, p, [in_]⟩) ∨
    (¬ (0xC0 ≤ deref buf in_ % 256 ∧ deref buf in_ % 256 ≤ 0xF7 ∧
        in_end - in_ ≤ continuation_count (deref buf in_ % 256)) ∧
      (from_utf8 buf in_ in_end p).cursor = in_ + 1 + continuation_count (deref buf in_ % 256) ∧
      (from_utf8 buf in_ in_end p).reads
        = List.range' in_ (1 + continuation_count (deref buf in_ % 256))) := by
  have hlt : deref buf in_ % 256 < 256 := Nat.mod_lt _ (by decide)
  by_cases c0 : deref buf in_ % 256 < 0xC0
  · have hk : continuation_count (deref buf in_ % 256) = 0 := by
      unfold continuation_count
      rw [if_neg (by omega), if_neg (by omega), if_neg (by omega)]
    right
    rw [from_utf8_single buf in_ in_end p h c0, hk]
    exact ⟨by omega, rfl, rfl⟩
  by_cases c1 : deref buf in_ % 256 ≤ 0xDF
  · have hk : continuation_count (deref buf in_ % 256) = 1 := by
      unfold continuation_count
      rw [if_pos ⟨by omega, c1⟩]
    rw [hk]
    by_cases ht : in_end - in_ ≤ 1
    · left
      refine ⟨by omega, by omega, ht, ?_⟩
      exact from_utf8_trunc buf in_ in_end p 1 h (by omega)
        (by rw [count_tbl_eq_continuation_count _ hlt (by omega), hk]) ht
    · right
      rw [from_utf8_two buf in_ in_end p (by omega) c1 (by omega)]
      exact ⟨by omega, rfl, rfl⟩
  by_cases c2 : deref buf in_ % 256 ≤ 0xEF
  · have hk : continuation_count (deref buf in_ % 256) = 2 := by
      unfold continuation_count
      rw [if_neg (by omega), if_pos ⟨by omega, c2⟩]
    rw [hk]
    by_cases ht : in_end - in_ ≤ 2
    · left
      refine ⟨by omega, by omega, ht, ?_⟩
      exact from_utf8_trunc buf in_ in_end p 2 h (by omega)
        (by rw [count_tbl_eq_continuation_count _ hlt (by omega), hk]) ht
    · right
      rw [from_utf8_three buf in_ in_end p (by omega) c2 (by omega)]
      exact ⟨by omega, rfl, rfl⟩
  by_cases c3 : deref buf in_ % 256 ≤ 0xF7
  · have hk : continuation_count (deref buf in_ % 256) = 3 := by
      unfold continuation_count
      rw [if_neg (by omega), if_neg (by omega), if_pos ⟨by omega, c3⟩]
    rw [hk]
    by_cases ht : in_end - in_ ≤ 3
    · left
      refine ⟨by omega, by omega, ht, ?_⟩
      exact from_utf8_trunc buf in_ in_end p 3 h (by omega)
        (by rw [count_tbl_eq_continuation_count _ hlt (by omega), hk]) ht
    · right
      rw [from_utf8_four buf in_ in_end p (by omega) c3 (by omega)]
      exact ⟨by omega, rfl, rfl⟩
  · have hk : continuation_count (deref buf in_ % 256) = 0 := by
      unfold continuation_count
      rw [if_neg (by omega), if_neg (by omega), if_neg (by omega)]
    right
    rw [from_utf8_high buf in_ in_end p h (by omega), hk]
    exact ⟨by omega, rfl, rfl⟩

theorem from_utf8_loop_congr (buf buf2 : List Nat) : ∀ (k i c : Nat),
    (∀ j, i < j → j ≤ i + k → deref buf2 j = deref buf j) →
    from_utf8_loop buf2 k i c = from_utf8_loop buf k i c := by
  intro k
  induction k with
  | zero => intro i c _; rfl
  | succ k ih =>
    intro i c h
    simp only [from_utf8_loop]
    rw [h (i + 1) (by omega) (by omega), ih (i + 1) _ (fun j h1 h2 => h j (by omega) (by omega))]

/-- The result of a call is determined by the elements inside `[in, in_end)`. -/
theorem from_utf8_congr (buf buf2 : List Nat) (in_ in_end p : Nat)
    (h : ∀ j, in_ ≤ j → j < in_end → deref buf2 j = deref buf j) :
    from_utf8 buf2 in_ in_end p = from_utf8 buf in_ in_end p := by
  by_cases hr : in_end ≤ in_
  · rw [from_utf8_empty _ _ _ _ hr, from_utf8_empty _ _ _ _ hr]
  · have e0 : deref buf2 in_ = deref buf in_ := h in_ (Nat.le_refl _) (by omega)
    simp only [from_utf8, ge_iff_le, hr, if_false, e0]
    split_ifs with h1 h2
    · rfl
    · rw [from_utf8_loop_congr buf buf2 _ _ _ (fun j h3 h4 => h j (by omega) (by omega))]
    · rfl

theorem utf8_encode_length (v : Nat) :
    1 ≤ (utf8_encode v).length ∧ (utf8_encode v).length ≤ 4 := by
  unfold utf8_encode
  split_ifs <;> simp

/-! ### The claims about `detail::from_utf8` -/

/-- C1 (decoder round trip).  For every Unicode scalar value `v` the standard
UTF-8 encoding of `v` has 1 to 4 bytes, and a call of `from_utf8` on a range
holding that encoding followed by arbitrary bytes `s` stores exactly `v` in
`*pcode` and returns the cursor advanced by the length of the encoding; the
same is stated for every `Char` with the encoder `String.utf8EncodeChar` of
the Lean library; and whenever the first byte of a non-empty range has its
high bit clear, the value stored is that byte and the cursor advances by 1. -/
theorem from_utf8_round_trip :
    (∀ v : Nat, is_scalar v → ∀ (pre s post : List Nat) (p0 : Nat),
      (1 ≤ (utf8_encode v).length ∧ (utf8_encode v).length ≤ 4) ∧
      (from_utf8 (pre ++ utf8_encode v ++ s ++ post) pre.length
        (pre.length + (utf8_encode v).length + s.length) p0).pcode = v ∧
      (from_utf8 (pre ++ utf8_encode v ++ s ++ post) pre.length
        (pre.length + (utf8_encode v).length + s.length) p0).cursor
          = pre.length + (utf8_encode v).length) ∧
    (∀ (c : Char) (pre s post : List Nat) (p0 : Nat),
      (from_utf8 (pre ++ (String.utf8EncodeChar c).map UInt8.toNat ++ s ++ post) pre.length
        (pre.length + c.utf8Size + s.length) p0).pcode = c.toNat ∧
      (from_utf8 (pre ++ (String.utf8EncodeChar c).map UInt8.toNat ++ s ++ post) pre.length
        (pre.length + c.utf8Size + s.length) p0).cursor = pre.length + c.utf8Size) ∧
    (∀ (buf : List Nat) (in_ in_end p0 b : Nat), in_ < in_end → buf[in_]? = some b → b < 0x80 →
      (from_utf8 buf in_ in_end p0).pcode = b ∧
      (from_utf8 buf in_ in_end p0).cursor = in_ + 1) := by
  refine ⟨?_, ?_, ?_⟩
  · intro v hv pre s post p0
    exact ⟨utf8_encode_length v, round_trip_aux v hv.1 pre s post p0⟩
  · intro c pre s post p0
    have hv : c.val.toNat < 0x110000 := by
      rcases c.valid with h | h
      · exact Nat.lt_trans h (by decide)
      · exact h.2
    have hl : (utf8_encode c.val.toNat).length = c.utf8Size := by
      rw [← utf8_encode_eq_core, List.length_map, String.length_utf8EncodeChar]
    rw [utf8_encode_eq_core, ← hl]
    exact round_trip_aux c.val.toNat (by omega) pre s post p0
  · intro buf in_ in_end p0 b h hb hlt
    have hd : deref buf in_ = b := deref_of_getElem? buf in_ b hb
    have hm : deref buf in_ % 256 = b := by rw [hd]; exact Nat.mod_eq_of_lt (by omega)
    rw [from_utf8_single buf in_ in_end p0 h (by omega), hm]
    exact ⟨rfl, rfl⟩

/-- Witness for C1: the three-byte encoding `E2 82 AC` of U+20AC, stored after
one byte and followed by two more. -/
theorem from_utf8_round_trip_witness :
    is_scalar 0x20AC ∧
    (from_utf8 ([0x41] ++ utf8_encode 0x20AC ++ [0x42] ++ [0x43]) 1 (1 + 3 + 1) 7).pcode = 0x20AC ∧
    (from_utf8 ([0x41] ++ utf8_encode 0x20AC ++ [0x42] ++ [0x43]) 1 (1 + 3 + 1) 7).cursor = 1 + 3 :=
  ⟨by decide, (from_utf8_round_trip.1 0x20AC (by decide) [0x41] [0x42] [0x43] 7).2⟩

/-- C2 (decoder truncation tolerance).  On the empty range, and on every range
whose first byte is a leader in `0xC0..0xF7` expecting `k` continuation bytes
(1, 2 or 3 as tabulated by `continuation_count`) and which holds fewer than
`k + 1` bytes, `from_utf8` returns the cursor it was given and leaves `*pcode`
as it was, whatever `*pcode` held. -/
theorem from_utf8_truncated (buf : List Nat) (in_ in_end p0 : Nat) :
    (in_end ≤ in_ →
      (from_utf8 buf in_ in_end p0).cursor = in_ ∧ (from_utf8 buf in_ in_end p0).pcode = p0) ∧
    (∀ b : Nat, in_ < in_end → buf[in_]? = some b → 0xC0 ≤ b → b ≤ 0xF7 →
      in_end - in_ < continuation_count b + 1 →
      (from_utf8 buf in_ in_end p0).cursor = in_ ∧ (from_utf8 buf in_ in_end p0).pcode = p0) := by
  refine ⟨?_, ?_⟩
  · intro h
    rw [from_utf8_empty buf in_ in_end p0 h]
    exact ⟨rfl, rfl⟩
  · intro b h hb h1 h2 ht
    have hd : deref buf in_ = b := deref_of_getElem? buf in_ b hb
    have hm : deref buf in_ % 256 = b := by rw [hd]; exact Nat.mod_eq_of_lt (by omega)
    rw [from_utf8_trunc buf in_ in_end p0 (continuation_count b) h (by omega)
      (by rw [hm]; exact count_tbl_eq_continuation_count b (by omega) h1) (by omega)]
    exact ⟨rfl, rfl⟩

/-- Witness for C2: a three-byte leader with only two bytes before the end. -/
theorem from_utf8_truncated_witness :
    (0 : Nat) < 2 ∧ [0xE2, 0x82, 0xAC][0]? = some 0xE2 ∧ 2 - 0 < continuation_count 0xE2 + 1 ∧
    (from_utf8 [0xE2, 0x82, 0xAC] 0 2 7).cursor = 0 ∧
    (from_utf8 [0xE2, 0x82, 0xAC] 0 2 7).pcode = 7 :=
  ⟨by decide, rfl, by decide,
    (from_utf8_truncated [0xE2, 0x82, 0xAC] 0 2 7).2 0xE2 (by decide) rfl (by decide) (by decide)
      (by decide)⟩

/-- C6 (decoder accumulation without validation).  Let the first byte `b` be
a leader in `0xC0..0xF7` with continuation count `k` and let `k + 1` bytes be
available.  Whatever the `k` following elements `c1 .. ck` are, `from_utf8`
advances the cursor by `k + 1` and stores `v_k`, where `v_0 = b AND mask`
(mask `0x1F`, `0x0F`, `0x07` for `k = 1, 2, 3`) and
`v_i = (v_(i-1) << 6) OR (c_i AND 0x3F)`. -/
theorem from_utf8_accumulates (buf : List Nat) (in_ in_end p0 b : Nat)
    (hb : buf[in_]? = some b) :
    (0xC0 ≤ b → b ≤ 0xDF → in_ + 2 ≤ in_end →
      ∀ c1 : Nat, buf[in_ + 1]? = some c1 →
        (from_utf8 buf in_ in_end p0).cursor = in_ + 2 ∧
        (from_utf8 buf in_ in_end p0).pcode = ((b &&& 0x1F) <<< 6) ||| (c1 &&& 0x3F)) ∧
    (0xE0 ≤ b → b ≤ 0xEF → in_ + 3 ≤ in_end →
      ∀ c1 c2 : Nat, buf[in_ + 1]? = some c1 → buf[in_ + 2]? = some c2 →
        (from_utf8 buf in_ in_end p0).cursor = in_ + 3 ∧
        (from_utf8 buf in_ in_end p0).pcode =
          ((((b &&& 0x0F) <<< 6) ||| (c1 &&& 0x3F)) <<< 6) ||| (c2 &&& 0x3F)) ∧
    (0xF0 ≤ b → b ≤ 0xF7 → in_ + 4 ≤ in_end →
      ∀ c1 c2 c3 : Nat, buf[in_ + 1]? = some c1 → buf[in_ + 2]? = some c2 →
        buf[in_ + 3]? = some c3 →
        (from_utf8 buf in_ in_end p0).cursor = in_ + 4 ∧
        (from_utf8 buf in_ in_end p0).pcode =
          ((((((b &&& 0x07) <<< 6) ||| (c1 &&& 0x3F)) <<< 6) ||| (c2 &&& 0x3F)) <<< 6)
            ||| (c3 &&& 0x3F)) := by
  have hd : deref buf in_ = b := deref_of_getElem? buf in_ b hb
  refine ⟨?_, ?_, ?_⟩
  · intro h1 h2 hn c1 hc1
    have hm : deref buf in_ % 256 = b := by rw [hd]; exact Nat.mod_eq_of_lt (by omega)
    rw [from_utf8_two buf in_ in_end p0 (by omega) (by omega) hn, hm,
      deref_of_getElem? buf _ c1 hc1]
    exact ⟨rfl, rfl⟩
  · intro h1 h2 hn c1 c2 hc1 hc2
    have hm : deref buf in_ % 256 = b := by rw [hd]; exact Nat.mod_eq_of_lt (by omega)
    rw [from_utf8_three buf in_ in_end p0 (by omega) (by omega) hn, hm,
      deref_of_getElem? buf _ c1 hc1, deref_of_getElem? buf _ c2 hc2]
    exact ⟨rfl, rfl⟩
  · intro h1 h2 hn c1 c2 c3 hc1 hc2 hc3
    have hm : deref buf in_ % 256 = b := by rw [hd]; exact Nat.mod_eq_of_lt (by omega)
    rw [from_utf8_four buf in_ in_end p0 (by omega) (by omega) hn, hm,
      deref_of_getElem? buf _ c1 hc1, deref_of_getElem? buf _ c2 hc2,
      deref_of_getElem? buf _ c3 hc3]
    exact ⟨rfl, rfl⟩

/-- Witness for C6: the leader `0xE0` followed by `0x41 0xFF`, neither of
which has the form `10xxxxxx`; the value stored is `0x7F`. -/
theorem from_utf8_accumulates_witness :
    [0xE0, 0x41, 0xFF][0]? = some 0xE0 ∧
    (from_utf8 [0xE0, 0x41, 0xFF] 0 3 0).cursor = 0 + 3 ∧
    (from_utf8 [0xE0, 0x41, 0xFF] 0 3 0).pcode =
      ((((0xE0 &&& 0x0F) <<< 6) ||| (0x41 &&& 0x3F)) <<< 6) ||| (0xFF &&& 0x3F) :=
  ⟨rfl, (from_utf8_accumulates [0xE0, 0x41, 0xFF] 0 3 0 0xE0 rfl).2.1 (by decide) (by decide)
    (by decide) 0x41 0xFF rfl rfl⟩

/-- C8 (decoder progress and bounds).  On every range `[in, in_end)` the
result of `from_utf8` is the same for any two buffers that agree inside the
range, the positions it dereferences lie in `[in, in_end)`, and the returned
cursor `r` satisfies `in ≤ r ≤ in_end`.  `r = in` exactly when the range is
empty or the first byte is in `0xC0..0xF7` and at most `k` bytes remain, `k`
its continuation count; otherwise `r = in + 1 + k`, with `k = 0` for first
bytes outside `0xC0..0xF7`, which is a progress of 1 to 4. -/
theorem from_utf8_progress_bounds (buf : List Nat) (in_ in_end p0 : Nat)
    (hrange : in_ ≤ in_end) :
    (∀ buf2 : List Nat, (∀ j, in_ ≤ j → j < in_end → deref buf2 j = deref buf j) →
      from_utf8 buf2 in_ in_end p0 = from_utf8 buf in_ in_end p0) ∧
    (∀ i ∈ (from_utf8 buf in_ in_end p0).reads, in_ ≤ i ∧ i < in_end) ∧
    in_ ≤ (from_utf8 buf in_ in_end p0).cursor ∧
    (from_utf8 buf in_ in_end p0).cursor ≤ in_end ∧
    ((from_utf8 buf in_ in_end p0).cursor = in_ ↔
      (in_ = in_end ∨
        (0xC0 ≤ deref buf in_ % 256 ∧ deref buf in_ % 256 ≤ 0xF7 ∧
          in_end - in_ ≤ continuation_count (deref buf in_ % 256)))) ∧
    ((from_utf8 buf in_ in_end p0).cursor ≠ in_ →
      (from_utf8 buf in_ in_end p0).cursor
        = in_ + 1 + continuation_count (deref buf in_ % 256) ∧
      in_ + 1 ≤ (from_utf8 buf in_ in_end p0).cursor ∧
      (from_utf8 buf in_ in_end p0).cursor ≤ in_ + 4) := by
  have hk := continuation_count_le (deref buf in_ % 256)
  refine ⟨fun buf2 h => from_utf8_congr buf buf2 in_ in_end p0 h, ?_⟩
  by_cases he : in_end ≤ in_
  · rw [from_utf8_empty buf in_ in_end p0 he]
    refine ⟨by simp, Nat.le_refl _, hrange, ?_, ?_⟩
    · exact ⟨fun _ => Or.inl (by omega), fun _ => rfl⟩
    · intro h; exact absurd rfl h
  · have hlt : in_ < in_end := by omega
    rcases from_utf8_shape buf in_ in_end p0 hlt with ⟨h1, h2, h3, h4⟩ | ⟨h1, h2, h3⟩
    · rw [h4]
      refine ⟨?_, Nat.le_refl _, hrange, ?_, ?_⟩
      · intro i hi
        simp only [List.mem_singleton] at hi
        omega
      · exact ⟨fun _ => Or.inr ⟨h1, h2, h3⟩, fun _ => rfl⟩
      · intro h; exact absurd rfl h
    · have hc : ¬ (in_end - in_ ≤ continuation_count (deref buf in_ % 256)) := by
        intro hc
        by_cases hb : 0xC0 ≤ deref buf in_ % 256 ∧ deref buf in_ % 256 ≤ 0xF7
        · exact h1 ⟨hb.1, hb.2, hc⟩
        · have : continuation_count (deref buf in_ % 256) = 0 := by
            unfold continuation_count
            rw [if_neg (by omega), if_neg (by omega), if_neg (by omega)]
          omega
      rw [h2, h3]
      refine ⟨?_, by omega, by omega, ?_, ?_⟩
      · intro i hi
        rw [List.mem_range'_1] at hi
        omega
      · constructor
        · intro h; omega
        · rintro (h | h)
          · omega
          · exact absurd h h1
      · intro _; exact ⟨rfl, by omega, by omega⟩

/-- Witness for C8: a complete three-byte sequence in a range that stops short
of the last element of the buffer; the cursor stays within the range. -/
theorem from_utf8_progress_bounds_witness :
    (0 : Nat) ≤ 3 ∧
    0 ≤ (from_utf8 [0xE2, 0x82, 0xAC, 0x41] 0 3 0).cursor ∧
    (from_utf8 [0xE2, 0x82, 0xAC, 0x41] 0 3 0).cursor ≤ 3 :=
  ⟨by decide, (from_utf8_progress_bounds [0xE2, 0x82, 0xAC, 0x41] 0 3 0 (by decide)).2.2.1,
    (from_utf8_progress_bounds [0xE2, 0x82, 0xAC, 0x41] 0 3 0 (by decide)).2.2.2.1⟩

/-- C9 (bytes that are not leaders).  When the first byte `b` of a non-empty
range is a stray continuation byte (`0x80..0xBF`) or lies in `0xF8..0xFF`
(where the `count_tbl` lookup is 0 and the mask `mask_tbl[0]` is `0xFF`),
`from_utf8` stores `b` itself and advances the cursor by exactly 1, whatever
the buffer holds elsewhere. -/
theorem from_utf8_non_leader (buf : List Nat) (in_ in_end p0 b : Nat)
    (hrange : in_ < in_end) (hb : buf[in_]? = some b)
    (hcls : (0x80 ≤ b ∧ b ≤ 0xBF) ∨ (0xF8 ≤ b ∧ b ≤ 0xFF)) :
    (from_utf8 buf in_ in_end p0).pcode = b ∧
    (from_utf8 buf in_ in_end p0).cursor = in_ + 1 ∧
    (0xF8 ≤ b →
      count_tbl.getD ((b >>> 3) &&& 7) 0 = 0 ∧
      mask_tbl.getD (count_tbl.getD ((b >>> 3) &&& 7) 0) 0 = 0xFF) := by
  have hd : deref buf in_ = b := deref_of_getElem? buf in_ b hb
  have hm : deref buf in_ % 256 = b := by rw [hd]; exact Nat.mod_eq_of_lt (by omega)
  have ht : 0xF8 ≤ b → count_tbl.getD ((b >>> 3) &&& 7) 0 = 0 ∧
      mask_tbl.getD (count_tbl.getD ((b >>> 3) &&& 7) 0) 0 = 0xFF := by
    intro h8
    have h0 := (leader_table b (by omega)).2.2.2.2 h8
    rw [h0]
    exact ⟨rfl, rfl⟩
  rcases hcls with h | h
  · rw [from_utf8_single buf in_ in_end p0 hrange (by omega), hm]
    exact ⟨rfl, rfl, ht⟩
  · rw [from_utf8_high buf in_ in_end p0 hrange (by omega), hm]
    exact ⟨rfl, rfl, ht⟩

/-- Witness for C9: the stray continuation byte `0x9F` followed by a leader. -/
theorem from_utf8_non_leader_witness :
    (0 : Nat) < 3 ∧ [0x9F, 0xE2, 0x82][0]? = some 0x9F ∧
    (from_utf8 [0x9F, 0xE2, 0x82] 0 3 0).pcode = 0x9F ∧
    (from_utf8 [0x9F, 0xE2, 0x82] 0 3 0).cursor = 0 + 1 :=
  ⟨by decide, rfl,
    (from_utf8_non_leader [0x9F, 0xE2, 0x82] 0 3 0 0x9F (by decide) rfl
      (Or.inl ⟨by decide, by decide⟩)).1,
    (from_utf8_non_leader [0x9F, 0xE2, 0x82] 0 3 0 0x9F (by decide) rfl
      (Or.inl ⟨by decide, by decide⟩)).2.1⟩

end detail

/-! ## Theorems about `Log` -/

namespace Log

/-- C5 (`Log::operator int`).  Converting a `Log` to an integer yields `-1`
for every `Log` object, in particular for one built by any of the three
constructors from any severity, parser pointer and location and then fed any
sequence of streamed texts. -/
theorem operator_int_eq_neg_one :
    (∀ log : Log, log.operator_int = -1) ∧
    (∀ (type : MsgType) (parser : Option Nat) (l : TokenLoc) (texts : List String),
      (texts.foldl operator_shl (mk1 type)).operator_int = -1 ∧
      (texts.foldl operator_shl (mk2 type parser)).operator_int = -1 ∧
      (texts.foldl operator_shl (mk3 type parser l)).operator_int = -1) :=
  ⟨fun _ => rfl, fun _ _ _ _ => ⟨rfl, rfl, rfl⟩⟩

end Log

/-! ## Theorems about `Parser` -/

namespace Parser

variable {Node ValueSet CtxData IStream : Type}

theorem extractPatternTree_eq (p : Parser Node ValueSet CtxData IStream) (n : Nat)
    (hn : n < p.patterns_.length) :
    p.extractPatternTree n =
      some ((p.patterns_.get ⟨n, hn⟩).syn_tree,
        { p with patterns_ :=
            p.patterns_.set n { (p.patterns_.get ⟨n, hn⟩) with syn_tree := none } }) := by
  unfold extractPatternTree
  rw [List.getElem?_eq_getElem hn]
  rfl

theorem set_tree_getElem? (l : List (Pattern Node ValueSet)) (n : Nat) (hn : n < l.length)
    (m : Nat) :
    (l.set n { (l.get ⟨n, hn⟩) with syn_tree := none })[m]? =
      if m = n then some { (l.get ⟨n, hn⟩) with syn_tree := none } else l[m]? := by
  rw [List.getElem?_set]
  by_cases h : n = m
  · subst h; simp [hn]
  · have h2 : ¬ m = n := fun e => h e.symm
    simp [h, h2]

/-- C3 (extraction is single-use).  When slot `n` of a parser holds the tree
`t`, the first `extractPatternTree(n)` returns `t` and leaves slot `n` null,
and a second `extractPatternTree(n)` returns the null pointer, not `t`, and
leaves the parser as the first call left it, so that every later call on `n`
returns null as well. -/
theorem extractPatternTree_single_use (p : Parser Node ValueSet CtxData IStream) (n : Nat)
    (t : Node) (hn : n < p.getPatterns.length)
    (ht : (p.getPatterns[n]?).map Pattern.syn_tree = some (some t)) :
    ∃ p1 : Parser Node ValueSet CtxData IStream,
      p.extractPatternTree n = some (some t, p1) ∧
      (p1.getPatterns[n]?).map Pattern.syn_tree = some none ∧
      p1.extractPatternTree n = some (none, p1) ∧
      (none : Option Node) ≠ some t := by
  have hn2 : n < p.patterns_.length := hn
  have hg : (p.patterns_.get ⟨n, hn2⟩).syn_tree = some t := by
    have h := ht
    unfold getPatterns at h
    rw [List.getElem?_eq_getElem hn2] at h
    simpa using h
  refine ⟨{ p with patterns_ :=
      p.patterns_.set n { (p.patterns_.get ⟨n, hn2⟩) with syn_tree := none } }, ?_, ?_, ?_,
    by simp⟩
  · rw [extractPatternTree_eq p n hn2, hg]
  · unfold getPatterns
    simp only [set_tree_getElem?, if_true, Option.map_some']
  · unfold extractPatternTree
    simp only [set_tree_getElem?, if_true, List.set_set]

/-- Witness for C3: the two calls on slot 0 of `sample`. -/
theorem extractPatternTree_single_use_witness :
    0 < sample.getPatterns.length ∧
    ∃ p1 : Parser Nat Unit Unit Unit,
      sample.extractPatternTree 0 = some (some 7, p1) ∧
      (p1.getPatterns[0]?).map Pattern.syn_tree = some none ∧
      p1.extractPatternTree 0 = some (none, p1) ∧
      (none : Option Nat) ≠ some 7 :=
  ⟨by decide, extractPatternTree_single_use sample 0 7 (by decide) rfl⟩

/-- C4 as amended (a second extraction is not an error).  For every index
`n` in range, `extractPatternTree(n)` returns normally, and calling it again
with the same `n` returns normally too: it yields the null pointer and leaves
the parser unchanged. -/
theorem extractPatternTree_second_call (p : Parser Node ValueSet CtxData IStream) (n : Nat)
    (hn : n < p.getPatterns.length) :
    ∃ (r : Option Node) (p1 : Parser Node ValueSet CtxData IStream),
      p.extractPatternTree n = some (r, p1) ∧
      p1.extractPatternTree n = some (none, p1) := by
  have hn2 : n < p.patterns_.length := hn
  refine ⟨_, _, extractPatternTree_eq p n hn2, ?_⟩
  · unfold extractPatternTree
    simp only [set_tree_getElem?, if_true, List.set_set]

/-- Witness for the amended C4: slot 1 of `sample`. -/
theorem extractPatternTree_second_call_witness :
    1 < sample.getPatterns.length ∧
    ∃ (r : Option Nat) (p1 : Parser Nat Unit Unit Unit),
      sample.extractPatternTree 1 = some (r, p1) ∧
      p1.extractPatternTree 1 = some (none, p1) :=
  ⟨by decide, extractPatternTree_second_call sample 1 (by decide)⟩

/-- Counterexample to C4 as stated: on `sample`, whose slot 0 is in range, the
call `extractPatternTree(0)` returns the tree `7` and the state
`sample_extracted`; the second call `extractPatternTree(0)` then returns
normally with the null pointer, it does not fail. -/
theorem extractPatternTree_second_call_returns :
    0 < sample.getPatterns.length ∧
    sample.extractPatternTree 0 = some (some 7, sample_extracted) ∧
    sample_extracted.extractPatternTree 0 = some (none, sample_extracted) ∧
    sample_extracted.extractPatternTree 0 ≠ none :=
  ⟨by decide, rfl, rfl, fun h => Option.noConfusion h⟩

/-- C10 (extraction frame).  For every index `n` in range,
`extractPatternTree(n)` returns normally and changes nothing but the tree of
slot `n`: the number of patterns, the `id` and the `sc` of every pattern, the
whole pattern of every slot `m ≠ n`, `getStartConditions()` and every other
data member of the parser are as before. -/
theorem extractPatternTree_frame (p : Parser Node ValueSet CtxData IStream) (n : Nat)
    (hn : n < p.getPatterns.length) :
    ∃ (r : Option Node) (p1 : Parser Node ValueSet CtxData IStream),
      p.extractPatternTree n = some (r, p1) ∧
      p1.getPatterns.length = p.getPatterns.length ∧
      (∀ m : Nat, (p1.getPatterns[m]?).map Pattern.id = (p.getPatterns[m]?).map Pattern.id) ∧
      (∀ m : Nat, (p1.getPatterns[m]?).map Pattern.sc = (p.getPatterns[m]?).map Pattern.sc) ∧
      (∀ m : Nat, m ≠ n → p1.getPatterns[m]? = p.getPatterns[m]?) ∧
      p1.getStartConditions = p.getStartConditions ∧
      p1 = { p with patterns_ := p1.patterns_ } := by
  have hn2 : n < p.patterns_.length := hn
  refine ⟨_, _, extractPatternTree_eq p n hn2, ?_, ?_, ?_, ?_, rfl, rfl⟩
  · simp only [getPatterns, List.length_set]
  · intro m
    simp only [getPatterns, set_tree_getElem?]
    by_cases h : m = n
    · subst h
      rw [if_pos rfl, List.getElem?_eq_getElem hn2]
      rfl
    · rw [if_neg h]
  · intro m
    simp only [getPatterns, set_tree_getElem?]
    by_cases h : m = n
    · subst h
      rw [if_pos rfl, List.getElem?_eq_getElem hn2]
      rfl
    · rw [if_neg h]
  · intro m h
    simp only [getPatterns, set_tree_getElem?]
    rw [if_neg h]

/-- Witness for C10: extraction of slot 0 of `sample` keeps the number of
patterns and the start conditions. -/
theorem extractPatternTree_frame_witness :
    0 < sample.getPatterns.length ∧
    ∃ (r : Option Nat) (p1 : Parser Nat Unit Unit Unit),
      sample.extractPatternTree 0 = some (r, p1) ∧
      p1.getPatterns.length = sample.getPatterns.length ∧
      p1.getStartConditions = sample.getStartConditions :=
  ⟨by decide,
    let ⟨r, p1, h1, h2, _, _, _, h6, _⟩ := extractPatternTree_frame sample 0 (by decide)
    ⟨r, p1, h1, h2, h6⟩⟩

/-! ### `dig` and `hdig` -/

theorem chr_values :
    chr '0' = 48 ∧ chr '9' = 57 ∧ chr 'a' = 97 ∧ chr 'f' = 102 ∧ chr 'A' = 65 ∧ chr 'F' = 70 :=
  ⟨rfl, rfl, rfl, rfl, rfl, rfl⟩

/-- C7 (digit helpers).  For every decimal digit character `'0' + d` with
`0 ≤ d ≤ 9`, `dig` and `hdig` both return `d`; for every `i` in `0..5`,
`hdig('a' + i)` and `hdig('A' + i)` are `10 + i`; hence on every hexadecimal
digit character `hdig` returns a value in `0..15`. -/
theorem dig_hdig_values :
    (∀ d : Int, 0 ≤ d → d ≤ 9 → dig (chr '0' + d) = d ∧ hdig (chr '0' + d) = d) ∧
    (∀ i : Int, 0 ≤ i → i ≤ 5 → hdig (chr 'a' + i) = 10 + i ∧ hdig (chr 'A' + i) = 10 + i) ∧
    (∀ c : Int,
      (chr '0' ≤ c ∧ c ≤ chr '9') ∨ (chr 'a' ≤ c ∧ c ≤ chr 'f') ∨ (chr 'A' ≤ c ∧ c ≤ chr 'F') →
      0 ≤ hdig c ∧ hdig c ≤ 15) := by
  obtain ⟨h0, h9, ha, hf, hA, hF⟩ := chr_values
  refine ⟨?_, ?_, ?_⟩
  · intro d h1 h2
    unfold dig hdig
    rw [h0, ha, hf, hA, hF]
    refine ⟨by omega, ?_⟩
    split_ifs <;> omega
  · intro i h1 h2
    unfold hdig
    rw [h0, ha, hf, hA, hF]
    refine ⟨?_, ?_⟩ <;> split_ifs <;> omega
  · intro c h
    unfold hdig
    rw [h0, h9, ha, hf, hA, hF] at *
    split_ifs <;> omega

/-- Witness for C7: the digit `'7'`. -/
theorem dig_hdig_values_witness :
    (0 : Int) ≤ 7 ∧ (7 : Int) ≤ 9 ∧ dig (chr '0' + 7) = 7 ∧ hdig (chr '0' + 7) = 7 :=
  ⟨by decide, by decide, dig_hdig_values.1 7 (by decide) (by decide)⟩

end Parser

end Lexegen
